import Mathlib

/-!
Verification of the filesystem-mediated coordination core of
`src/util/parallel/parallelizer.cpp`: process identity resolution,
work-directory setup, the queue registry, the registration protocol,
the two-phase rendezvous barrier and its cleanup ledgers.

The process-local state of the `Parallelizer` object is embedded as a
record and each member function as a pure transformation of it.  The
cross-process behaviour of a single barrier step is embedded as a
labelled transition system over the shared command/acknowledgment
queues (`BState` / `BStep` below).
-/

namespace ParallelVerif

/-- Decimal rendering of a natural number, modelling `std::to_string`
on the non-negative values used by the program.  Fuel-structured so it
reduces in the kernel; `fuel` always exceeds `n`. -/
def to_string_core : Nat → Nat → List Char → List Char
  | 0, _, acc => acc
  | fuel + 1, n, acc =>
    if n < 10 then Nat.digitChar n :: acc
    else to_string_core fuel (n / 10) (Nat.digitChar (n % 10) :: acc)

/-- `std::to_string` for the non-negative counters of the program. -/
def to_string (n : Nat) : String := ⟨to_string_core (n + 1) n []⟩

/-- `std::to_string` on `int` values (used for the rank in `init`). -/
def int_to_string (i : Int) : String :=
  if i < 0 then "-" ++ to_string i.natAbs else to_string i.natAbs

/-- Modelled from the spec: the path-joining utility `join_path` of
`multiprocessing.h` is an external collaborator not under `src/`; the
spec describes it as generic path joining. -/
def join_path (a b : String) : String := a ++ "/" ++ b

/-- Process-local state of the `Parallelizer` object: the fields of the
class as declared in `parallelizer.cpp`.  A queue handle is identified
by its backing file name, so `fs_map` maps a tag to that name. -/
structure PState where
  work_directory : String
  n_registered : Nat
  master_flag : Bool
  i_barrier : Nat
  initialized : Bool
  rank : Int
  id : String
  barrier_file : String
  fs_map : List (String × String)
  continuous_cleanup_list : List String
  final_cleanup_list : List String
deriving Repr, DecidableEq

/-- Modelled from the spec: the default of the `initialized` member is
declared in `parallelizer.h`, which is not under `src/`; the spec says a
`barrier()` call before setup completes returns `false`, so the flag
starts out `false` and is only set at the end of `init`. -/
def initial_initialized : Bool := false

/-- Modelled from the spec: the default of the `rank` member is declared
in `parallelizer.h`, which is not under `src/`; `init` fails when
`rank < 0` after scanning the environment, so the member starts at a
negative sentinel. -/
def initial_rank : Int := -1

/-- `Parallelizer::Parallelizer()`: the constructor's initializer list
sets `work_directory`, `n_registered`, `master_flag` and `i_barrier`;
the remaining members start at their declared defaults (empty strings,
empty containers, and the spec-modelled `initialized`/`rank`). -/
def mkParallelizer : PState :=
  { work_directory := "libworkstack"
    n_registered := 0
    master_flag := true
    i_barrier := 0
    initialized := initial_initialized
    rank := initial_rank
    id := ""
    barrier_file := ""
    fs_map := []
    continuous_cleanup_list := []
    final_cleanup_list := [] }

/-- `Parallelizer::is_master()`. -/
def is_master (s : PState) : Bool := s.master_flag

/-- `Parallelizer::get_barrier_file_name(step, tag, i)`. -/
def get_barrier_file_name (s : PState) (step tag : String) (i : Nat) : String :=
  s.barrier_file ++ "_" ++ step ++ "_" ++ tag ++ "_" ++ to_string i

/-- `Parallelizer::clean(file_list)`: unlinks every file of the list and
clears it; returns the list of deleted files and the emptied ledger. -/
def clean (l : List String) : List String × List String := (l, [])

/-- Result of one `Parallelizer::barrier` call: the returned boolean,
the updated process-local state, the backing files of the `FileStack`
objects constructed by the call, and the files deleted by `clean`. -/
structure BarrierCall where
  ok : Bool
  state : PState
  created : List String
  deleted : List String
deriving Repr, DecidableEq

/-- `Parallelizer::barrier(tag)`: early return when not yet initialized;
otherwise the call constructs the per-step command and acknowledgment
stacks, synchronizes (the cross-process part is modelled by `BStep`
below and has no effect on the process-local state), and on the master
cleans the continuous ledger and records the two new file names before
the unconditional step-index increment. -/
def barrier (tag : String) (s : PState) : BarrierCall :=
  if !s.initialized then
    { ok := false, state := s, created := [], deleted := [] }
  else
    let cmd_file_name := get_barrier_file_name s "cmd" tag s.i_barrier
    let ack_file_name := get_barrier_file_name s "ack" tag s.i_barrier
    let (del, s1) :=
      if is_master s then
        let (d, emptied) := clean s.continuous_cleanup_list
        (d, { s with continuous_cleanup_list :=
                emptied ++ [cmd_file_name, ack_file_name] })
      else ([], s)
    { ok := true
      state := { s1 with i_barrier := s1.i_barrier + 1 }
      created := [cmd_file_name, ack_file_name]
      deleted := del }

/-- `Parallelizer::~Parallelizer()`: cleans the continuous cleanup list;
the `clean(final_cleanup_list)` line is commented out in the source, so
the final ledger is left untouched.  Returns the deleted files and the
final state. -/
def destructor (s : PState) : List String × PState :=
  let (d, emptied) := clean s.continuous_cleanup_list
  (d, { s with continuous_cleanup_list := emptied })

/-- `Parallelizer::create_stack_from_file(tag, file_name)`: inserts a
handle only when the tag is absent, recording the backing file in the
final cleanup list. -/
def create_stack_from_file (tag file_name : String) (s : PState) : Bool × PState :=
  if (s.fs_map.lookup tag).isNone then
    (true, { s with fs_map := (tag, file_name) :: s.fs_map,
                    final_cleanup_list := s.final_cleanup_list ++ [file_name] })
  else (false, s)

/-- `Parallelizer::create_stack(tag, sfx)`. -/
def create_stack (tag sfx : String) (s : PState) : Bool × PState :=
  if (s.fs_map.lookup tag).isNone then
    let sfx1 := if sfx.length > 0 then "_" ++ sfx else sfx
    let file_name := join_path s.work_directory (tag ++ sfx1)
    create_stack_from_file tag file_name s
  else (false, s)

/-- `Parallelizer::delete_stack(tag)`. -/
def delete_stack (tag : String) (s : PState) : Bool × PState :=
  if (s.fs_map.lookup tag).isSome then
    (true, { s with fs_map := s.fs_map.filter (fun kv => !(kv.1 = tag : Bool)) })
  else (false, s)

/-- Modelled from the spec: the shared filesystem seen by `mkdir`.
`dirs` are the directories that exist; `bad` are paths on which
directory creation fails for a reason other than prior existence
(permissions, missing parent, ...). -/
structure FileSys where
  dirs : List String
  bad : List String
deriving Repr, DecidableEq

/-- Outcome of one `mkdir` call. -/
inductive MkdirResult
  | ok
  | eexist
  | failed
deriving Repr, DecidableEq

/-- Modelled from the spec: POSIX `mkdir` — succeeds and creates the
directory when absent and creatable, reports `EEXIST` when the
directory already exists, and fails otherwise. -/
def mkdir (p : String) (fs : FileSys) : MkdirResult × FileSys :=
  if p ∈ fs.dirs then (.eexist, fs)
  else if p ∈ fs.bad then (.failed, fs)
  else (.ok, { fs with dirs := p :: fs.dirs })

/-- The work-directory composition block of `Parallelizer::init`:
joins the caller-supplied temporary-directory override (when nonempty)
with the current base name and appends `"_" + SLURM_JOBID` when that
variable is set. -/
def compose_work_directory (tempdir : String) (jobid : Option String)
    (wd : String) : String :=
  let wd1 := if tempdir.length > 0 then join_path tempdir wd else wd
  match jobid with
  | some j => wd1 ++ "_" ++ j
  | none => wd1

/-- The directory-creation block of `Parallelizer::init`: composes the
work directory, calls `mkdir`, tolerates `EEXIST`, and throws a
`runtime_error` carrying the path on any other failure. -/
def ensure_work_directory (tempdir : String) (jobid : Option String)
    (s : PState) (fs : FileSys) : Except String (PState × FileSys) :=
  let wd := compose_work_directory tempdir jobid s.work_directory
  match mkdir wd fs with
  | (.ok, fs1) => .ok ({ s with work_directory := wd }, fs1)
  | (.eexist, fs1) => .ok ({ s with work_directory := wd }, fs1)
  | (.failed, _) =>
    .error ("could not create working directory " ++ wd ++ " for parallelizer")

/-- `std::stoi`: skip leading whitespace, accept one optional sign,
then require at least one decimal digit; trailing characters are
ignored. `none` models the `std::invalid_argument` exception. -/
def cppStoi (str : String) : Option Int :=
  let afterWs := str.data.dropWhile (fun c => c.isWhitespace)
  let (sign, rest) : Int × List Char :=
    match afterWs with
    | '-' :: t => (-1, t)
    | '+' :: t => (1, t)
    | t => (1, t)
  let ds := rest.takeWhile (fun c => c.isDigit)
  if ds.isEmpty then none
  else some (sign * (ds.foldl (fun a c => 10 * a + (c.toNat - 48)) 0 : Nat))

/-- The candidate rank environment variables of `Parallelizer::init`,
scanned in this order. -/
def env_opts : List String := ["SLURM_PROCID", "PARALLEL_RANK"]

/-- The first candidate variable that is set wins (the loop breaks). -/
def first_set (env : String → Option String) : List String → Option String
  | [] => none
  | v :: rest =>
    match env v with
    | some str => some str
    | none => first_set env rest

/-- Failures of `Parallelizer::init`: `configurationError` is the
`runtime_error` thrown when the rank stays negative, `invalidArgument`
the `std::invalid_argument` escaping `std::stoi`. -/
inductive InitError
  | invalidArgument
  | configurationError
deriving Repr, DecidableEq

/-- The tail of the rank-resolution block of `Parallelizer::init`: the
negativity check after the scan loop, the master-flag assignment and
the identity derivation, applied to the rank value `rk` left by the
loop. -/
def resolve_rank_check (rk : Int) (s : PState) : Except InitError PState :=
  if rk < 0 then .error .configurationError
  else
    .ok { s with rank := rk,
                 master_flag := if rk = 0 then true else false,
                 id := "rank_" ++ int_to_string rk }

/-- The rank-resolution block of `Parallelizer::init` (lines 65-87):
scan `env_opts` in order, parse the first value found with `std::stoi`
(when no variable is set the rank keeps its prior sentinel value), then
run the check/assignment tail. -/
def resolve_identity (env : String → Option String) (s : PState) :
    Except InitError PState :=
  match first_set env env_opts with
  | some str =>
    match cppStoi str with
    | some v => resolve_rank_check v s
    | none => .error .invalidArgument
  | none => resolve_rank_check s.rank s

/-- The shared REGISTER and WORKERS queues used by the registration
protocol.  Modelled from the spec: the `FileStack` collaborator is a
durable append-only queue whose `pop` drains the oldest value first. -/
structure SharedQueues where
  register : List String
  workers : List String
deriving Repr, DecidableEq

/-- The coordinator's drain loop in `Parallelizer::register_workers`:
`while (pop(line)) { WORKERS.push(line); n_registered++; }`. -/
def drain_register : List String → List String → Nat →
    List String × List String × Nat
  | [], w, n => ([], w, n)
  | x :: rest, w, n => drain_register rest (w ++ [x]) (n + 1)

/-- `Parallelizer::register_workers`: every process pushes its own id
onto REGISTER and sleeps (no state effect); only the master then drains
REGISTER into WORKERS, counting each popped id. -/
def register_workers (s : PState) (q : SharedQueues) : PState × SharedQueues :=
  let q1 := { q with register := q.register ++ [s.id] }
  if is_master s then
    let (r, w, n) := drain_register q1.register q1.workers s.n_registered
    ({ s with n_registered := n }, { register := r, workers := w })
  else (s, q1)

/-! ### The barrier step as a transition system

One `barrier(tag)` call at one step index uses a fresh pair of queues
(`cmd`, `ack`), so the cross-process behaviour of a single step is a
transition system over those two queues and each participant's program
counter.  With `n + 1` registered participants, process `0` is the
coordinator (the master); every process runs the same program, the
master-only blocks being skips for the others:

pc 0: master clears `ack`                    pc 4: master polls `ack` size
pc 1: master pushes `WAIT` onto `cmd`        pc 5: master pushes `GOON`
pc 2: poll `cmd` for `WAIT`                  pc 6: poll `cmd` for `GOON`
pc 3: push own id onto `ack`                 pc 7: past the barrier

Modelled from the spec: the `FileStack` operations `push`, `clear`,
`poll_query` and `poll_size` follow the persistent-queue contract
(append-only visibility, poll-for-value succeeds once the value is in
the queue, size is the number of stored values). -/

/-- The two markers exchanged on the command queue. -/
inductive Marker
  | wait
  | goon
deriving Repr, DecidableEq

/-- Global state of one barrier step with `n + 1` participants. -/
structure BState (n : Nat) where
  pc : Fin (n + 1) → Nat
  cmd : List Marker
  ack : List (Fin (n + 1))

/-- All participants at the start, both queues fresh. -/
def BInit (n : Nat) : BState n := ⟨fun _ => 0, [], []⟩

/-- One atomic action of one participant of a barrier step. -/
inductive BStep (n : Nat) : BState n → BState n → Prop
  | clear_ack (s : BState n) :
      s.pc 0 = 0 →
      BStep n s ⟨Function.update s.pc 0 1, s.cmd, []⟩
  | skip_clear (s : BState n) (p : Fin (n + 1)) :
      p ≠ 0 → s.pc p = 0 →
      BStep n s ⟨Function.update s.pc p 1, s.cmd, s.ack⟩
  | push_wait (s : BState n) :
      s.pc 0 = 1 →
      BStep n s ⟨Function.update s.pc 0 2, s.cmd ++ [.wait], s.ack⟩
  | skip_push_wait (s : BState n) (p : Fin (n + 1)) :
      p ≠ 0 → s.pc p = 1 →
      BStep n s ⟨Function.update s.pc p 2, s.cmd, s.ack⟩
  | poll_wait (s : BState n) (p : Fin (n + 1)) :
      s.pc p = 2 → Marker.wait ∈ s.cmd →
      BStep n s ⟨Function.update s.pc p 3, s.cmd, s.ack⟩
  | push_ack (s : BState n) (p : Fin (n + 1)) :
      s.pc p = 3 →
      BStep n s ⟨Function.update s.pc p 4, s.cmd, s.ack ++ [p]⟩
  | poll_size (s : BState n) :
      s.pc 0 = 4 → n + 1 ≤ s.ack.length →
      BStep n s ⟨Function.update s.pc 0 5, s.cmd, s.ack⟩
  | skip_poll_size (s : BState n) (p : Fin (n + 1)) :
      p ≠ 0 → s.pc p = 4 →
      BStep n s ⟨Function.update s.pc p 5, s.cmd, s.ack⟩
  | push_goon (s : BState n) :
      s.pc 0 = 5 →
      BStep n s ⟨Function.update s.pc 0 6, s.cmd ++ [.goon], s.ack⟩
  | skip_push_goon (s : BState n) (p : Fin (n + 1)) :
      p ≠ 0 → s.pc p = 5 →
      BStep n s ⟨Function.update s.pc p 6, s.cmd, s.ack⟩
  | poll_goon (s : BState n) (p : Fin (n + 1)) :
      s.pc p = 6 → Marker.goon ∈ s.cmd →
      BStep n s ⟨Function.update s.pc p 7, s.cmd, s.ack⟩

/-- Reachability from the fresh step state by interleaved actions. -/
def BReach (n : Nat) (s : BState n) : Prop :=
  Relation.ReflTransGen (BStep n) (BInit n) s

/-- Inductive invariant of a barrier step: the markers on the command
queue pin down how far the coordinator has progressed, a process past a
poll implies the polled condition held, the acknowledgment queue counts
exactly the processes that pushed, and once the coordinator passed its
size poll the queue holds all `n + 1` acknowledgments. -/
def BInv (n : Nat) (s : BState n) : Prop :=
  (Marker.wait ∈ s.cmd → 2 ≤ s.pc 0) ∧
  (Marker.goon ∈ s.cmd → 6 ≤ s.pc 0) ∧
  (∀ p, 3 ≤ s.pc p → Marker.wait ∈ s.cmd) ∧
  (∀ p, 7 ≤ s.pc p → Marker.goon ∈ s.cmd) ∧
  (5 ≤ s.pc 0 → n + 1 ≤ s.ack.length) ∧
  (s.ack.length = (Finset.univ.filter (fun p => 4 ≤ s.pc p)).card) ∧
  (∀ p, 4 ≤ s.pc p → p ∈ s.ack)

/-- The states of a complete single-participant barrier step run, used
to instantiate the reachability theorem on a concrete trace. -/
def c1s1 : BState 0 := ⟨fun _ => 1, [], []⟩

def c1s2 : BState 0 := ⟨fun _ => 2, [Marker.wait], []⟩

def c1s3 : BState 0 := ⟨fun _ => 3, [Marker.wait], []⟩

def c1s4 : BState 0 := ⟨fun _ => 4, [Marker.wait], [0]⟩

def c1s5 : BState 0 := ⟨fun _ => 5, [Marker.wait], [0]⟩

def c1s6 : BState 0 := ⟨fun _ => 6, [Marker.wait, Marker.goon], [0]⟩

def c1_final : BState 0 := ⟨fun _ => 7, [Marker.wait, Marker.goon], [0]⟩

/-- The operations of one `Parallelizer::barrier` call in program
order (the release phase ends with the `GOON` poll; the master then
cleans the continuous ledger and records the new file names, and every
process finally increments the step index). -/
inductive BOp
  | clearAck
  | pushWaitMarker
  | pollWaitMarker
  | pushAckId
  | pollAckSize
  | pushGoonMarker
  | pollGoonMarker
  | cleanContinuous
  | recordCmdFile
  | recordAckFile
  | incStepIndex
deriving Repr, DecidableEq, BEq

/-- The operation order of `Parallelizer::barrier` for the master
(`true`) and for a worker (`false`), read off the source line by line. -/
def barrier_ops (master : Bool) : List BOp :=
  (if master then [.clearAck, .pushWaitMarker] else []) ++
  [.pollWaitMarker, .pushAckId] ++
  (if master then [.pollAckSize, .pushGoonMarker] else []) ++
  [.pollGoonMarker] ++
  (if master then [.cleanContinuous, .recordCmdFile, .recordAckFile] else []) ++
  [.incStepIndex]

/-! ### Injectivity of the decimal rendering -/

/-- Decoding step inverse to emitting one decimal digit. -/
def dec_step (a : Nat) (c : Char) : Nat := 10 * a + (c.toNat - 48)

theorem digitChar_toNat_sub : ∀ n, n < 10 → (Nat.digitChar n).toNat - 48 = n := by
  decide

theorem to_string_core_fold (fuel : Nat) : ∀ n acc, n < fuel →
    (to_string_core fuel n acc).foldl dec_step 0 = acc.foldl dec_step n := by
  induction fuel with
  | zero => intro n acc h; omega
  | succ f ih =>
    intro n acc h
    rw [to_string_core]
    by_cases h10 : n < 10
    · rw [if_pos h10]
      show List.foldl dec_step (dec_step 0 (Nat.digitChar n)) acc = _
      have : dec_step 0 (Nat.digitChar n) = n := by
        simp [dec_step, digitChar_toNat_sub n h10]
      rw [this]
    · rw [if_neg h10]
      have hn0 : 0 < n := by omega
      have hdiv : n / 10 < n := Nat.div_lt_self hn0 (by omega)
      have hlt : n / 10 < f := by omega
      rw [ih (n / 10) (Nat.digitChar (n % 10) :: acc) hlt]
      show List.foldl dec_step (dec_step (n / 10) (Nat.digitChar (n % 10))) acc = _
      have hm : dec_step (n / 10) (Nat.digitChar (n % 10)) = n := by
        have h1 : n % 10 < 10 := Nat.mod_lt _ (by omega)
        simp [dec_step, digitChar_toNat_sub _ h1]
        omega
      rw [hm]

theorem to_string_data_inj {m n : Nat}
    (h : (to_string m).data = (to_string n).data) : m = n := by
  have hm : (to_string m).data.foldl dec_step 0 = m := by
    show (to_string_core (m + 1) m []).foldl dec_step 0 = m
    rw [to_string_core_fold (m + 1) m [] (by omega)]; rfl
  have hn : (to_string n).data.foldl dec_step 0 = n := by
    show (to_string_core (n + 1) n []).foldl dec_step 0 = n
    rw [to_string_core_fold (n + 1) n [] (by omega)]; rfl
  rw [← hm, ← hn, h]

theorem to_string_inj {m n : Nat} (h : to_string m = to_string n) : m = n :=
  to_string_data_inj (congrArg String.data h)

theorem get_barrier_file_name_inj (s : PState) (step tag : String) {i j : Nat}
    (h : get_barrier_file_name s step tag i = get_barrier_file_name s step tag j) :
    i = j := by
  unfold get_barrier_file_name at h
  have hd := congrArg String.data h
  simp only [String.data_append] at hd
  exact to_string_data_inj (List.append_cancel_left hd)

/-! ### Helper lemmas on `barrier` -/

theorem barrier_master_run (tag : String) (s : PState)
    (h : s.initialized = true) (hm : s.master_flag = true) :
    barrier tag s =
      { ok := true
        state := { s with
          i_barrier := s.i_barrier + 1
          continuous_cleanup_list :=
            [get_barrier_file_name s "cmd" tag s.i_barrier,
             get_barrier_file_name s "ack" tag s.i_barrier] }
        created :=
          [get_barrier_file_name s "cmd" tag s.i_barrier,
           get_barrier_file_name s "ack" tag s.i_barrier]
        deleted := s.continuous_cleanup_list } := by
  unfold barrier
  rw [h]
  simp [is_master, hm, clean]

theorem barrier_worker_run (tag : String) (s : PState)
    (h : s.initialized = true) (hm : s.master_flag = false) :
    barrier tag s =
      { ok := true
        state := { s with i_barrier := s.i_barrier + 1 }
        created :=
          [get_barrier_file_name s "cmd" tag s.i_barrier,
           get_barrier_file_name s "ack" tag s.i_barrier]
        deleted := [] } := by
  unfold barrier
  rw [h]
  simp [is_master, hm, clean, h]

theorem barrier_ok_fields (tag : String) (s : PState) (h : s.initialized = true) :
    (barrier tag s).ok = true ∧
    (barrier tag s).state.initialized = true ∧
    (barrier tag s).state.i_barrier = s.i_barrier + 1 ∧
    (barrier tag s).state.barrier_file = s.barrier_file ∧
    (barrier tag s).state.master_flag = s.master_flag ∧
    (barrier tag s).state.final_cleanup_list = s.final_cleanup_list ∧
    (barrier tag s).created =
      [get_barrier_file_name s "cmd" tag s.i_barrier,
       get_barrier_file_name s "ack" tag s.i_barrier] := by
  by_cases hm : s.master_flag = true
  · rw [barrier_master_run tag s h hm]
    exact ⟨rfl, h, rfl, rfl, rfl, rfl, rfl⟩
  · have hm1 : s.master_flag = false := by
      cases hb : s.master_flag
      · rfl
      · exact absurd hb hm
    rw [barrier_worker_run tag s h hm1]
    exact ⟨rfl, h, rfl, rfl, rfl, rfl, rfl⟩

/-! ### Claim theorems: the uninitialized no-op and the step index -/

/-- C2: a `barrier(tag)` call before setup completed (`initialized`
false) returns `false`, creates no queues, deletes nothing, and leaves
the whole process-local state (step counter, ledgers, registry)
unchanged. -/
theorem barrier_uninitialized_noop (tag : String) (s : PState)
    (h : s.initialized = false) :
    barrier tag s = { ok := false, state := s, created := [], deleted := [] } := by
  unfold barrier
  rw [h]
  rfl

theorem barrier_uninitialized_noop_witness :
    mkParallelizer.initialized = false ∧
    barrier "x" mkParallelizer =
      { ok := false, state := mkParallelizer, created := [], deleted := [] } :=
  ⟨rfl, barrier_uninitialized_noop "x" mkParallelizer rfl⟩

/-- C3 (counterexample): on a freshly constructed (uninitialized)
process the claim "the step index increments by exactly one after every
barrier call, whether or not the call succeeds" fails: the call returns
`false` and the index stays 0. -/
theorem barrier_index_unconditional_increment_false :
    ¬ ((barrier "x" mkParallelizer).state.i_barrier =
        mkParallelizer.i_barrier + 1) := by
  decide

/-- C3 (amended): the step index is process-local, starts at 0, and
increments by exactly one after every barrier call that passes the
initialization check — independent of the tag and of coordinator
status — while a call made before initialization leaves it unchanged. -/
theorem barrier_index_increment (tag : String) (s : PState) :
    mkParallelizer.i_barrier = 0 ∧
    (s.initialized = true →
      (barrier tag s).state.i_barrier = s.i_barrier + 1) ∧
    (s.initialized = false →
      (barrier tag s).state.i_barrier = s.i_barrier) := by
  refine ⟨rfl, ?_, ?_⟩
  · intro h
    exact (barrier_ok_fields tag s h).2.2.1
  · intro h
    rw [barrier_uninitialized_noop tag s h]

theorem barrier_index_increment_witness :
    ({ mkParallelizer with initialized := true } : PState).initialized = true ∧
    (barrier "x" { mkParallelizer with initialized := true }).state.i_barrier =
      ({ mkParallelizer with initialized := true } : PState).i_barrier + 1 ∧
    mkParallelizer.initialized = false ∧
    (barrier "x" mkParallelizer).state.i_barrier = mkParallelizer.i_barrier :=
  ⟨rfl, (barrier_index_increment "x" _).2.1 rfl, rfl,
    (barrier_index_increment "x" _).2.2 rfl⟩

/-- C4: the derived barrier file name is injective in the step index,
and two sequential successful `barrier(tag)` calls on the same process
construct their command and acknowledgment stacks from distinct backing
file names (the second call uses step index `i_barrier + 1`). -/
theorem barrier_sequential_distinct_names (tag : String) (s : PState)
    (h : s.initialized = true) :
    (∀ step t : String, ∀ i j : Nat, i ≠ j →
      get_barrier_file_name s step t i ≠ get_barrier_file_name s step t j) ∧
    (barrier tag s).ok = true ∧
    (barrier tag (barrier tag s).state).ok = true ∧
    (barrier tag s).created =
      [get_barrier_file_name s "cmd" tag s.i_barrier,
       get_barrier_file_name s "ack" tag s.i_barrier] ∧
    (barrier tag (barrier tag s).state).created =
      [get_barrier_file_name s "cmd" tag (s.i_barrier + 1),
       get_barrier_file_name s "ack" tag (s.i_barrier + 1)] ∧
    get_barrier_file_name s "cmd" tag s.i_barrier ≠
      get_barrier_file_name s "cmd" tag (s.i_barrier + 1) ∧
    get_barrier_file_name s "ack" tag s.i_barrier ≠
      get_barrier_file_name s "ack" tag (s.i_barrier + 1) := by
  obtain ⟨hok, hinit', hibar, hbf, -, -, hcreated⟩ := barrier_ok_fields tag s h
  obtain ⟨hok2, -, -, -, -, -, hcreated2⟩ :=
    barrier_ok_fields tag (barrier tag s).state hinit'
  have hname : ∀ step : String, ∀ i : Nat,
      get_barrier_file_name (barrier tag s).state step tag i =
        get_barrier_file_name s step tag i := by
    intro step i
    unfold get_barrier_file_name
    rw [hbf]
  refine ⟨?_, hok, hok2, hcreated, ?_, ?_, ?_⟩
  · intro step t i j hne heq
    exact hne (get_barrier_file_name_inj s step t heq)
  · rw [hcreated2, hname, hname, hibar]
  · intro heq
    exact Nat.succ_ne_self s.i_barrier
      (get_barrier_file_name_inj s "cmd" tag heq.symm)
  · intro heq
    exact Nat.succ_ne_self s.i_barrier
      (get_barrier_file_name_inj s "ack" tag heq.symm)

theorem barrier_sequential_distinct_names_witness :
    ({ mkParallelizer with initialized := true } : PState).initialized = true ∧
    get_barrier_file_name { mkParallelizer with initialized := true } "cmd" "x" 0 ≠
      get_barrier_file_name { mkParallelizer with initialized := true } "cmd" "x" 1 ∧
    get_barrier_file_name { mkParallelizer with initialized := true } "ack" "x" 0 ≠
      get_barrier_file_name { mkParallelizer with initialized := true } "ack" "x" 1 := by
  have H := barrier_sequential_distinct_names "x"
    { mkParallelizer with initialized := true } rfl
  exact ⟨rfl, H.2.2.2.2.2.1, H.2.2.2.2.2.2⟩

/-! ### The queue registry -/

theorem lookup_none_countP (tag : String) (m : List (String × String))
    (h : m.lookup tag = none) : m.countP (fun kv => tag == kv.1) = 0 := by
  induction m with
  | nil => rfl
  | cons kv rest ih =>
    by_cases hbe : tag == kv.1
    · simp [List.lookup, hbe] at h
    · simp only [List.lookup, hbe] at h
      simp [List.countP_cons, hbe, ih h]

/-- C7: the registry keeps at most one handle per tag — a creation
request for a tag that already has a handle returns `false` and leaves
the registry and the final cleanup list unchanged, while a successful
creation inserts exactly one handle for the tag (its count in the map
becomes 1) and appends its backing path to the final cleanup list. -/
theorem create_stack_registry (tag sfx : String) (s : PState) :
    (∀ f, s.fs_map.lookup tag = some f → create_stack tag sfx s = (false, s)) ∧
    (s.fs_map.lookup tag = none →
      create_stack tag sfx s =
        (true, { s with
          fs_map := (tag, join_path s.work_directory
            (tag ++ (if sfx.length > 0 then "_" ++ sfx else sfx))) :: s.fs_map,
          final_cleanup_list := s.final_cleanup_list ++
            [join_path s.work_directory
              (tag ++ (if sfx.length > 0 then "_" ++ sfx else sfx))] }) ∧
      ((create_stack tag sfx s).2.fs_map.countP (fun kv => tag == kv.1)) = 1) := by
  constructor
  · intro f hf
    unfold create_stack
    rw [hf]
    rfl
  · intro hnone
    have hrun : create_stack tag sfx s =
        (true, { s with
          fs_map := (tag, join_path s.work_directory
            (tag ++ (if sfx.length > 0 then "_" ++ sfx else sfx))) :: s.fs_map,
          final_cleanup_list := s.final_cleanup_list ++
            [join_path s.work_directory
              (tag ++ (if sfx.length > 0 then "_" ++ sfx else sfx))] }) := by
      unfold create_stack create_stack_from_file
      rw [hnone]
      rfl
    refine ⟨hrun, ?_⟩
    rw [hrun]
    simp [List.countP_cons, lookup_none_countP tag s.fs_map hnone]

theorem create_stack_registry_witness :
    mkParallelizer.fs_map.lookup "COMMAND" = none ∧
    (create_stack "COMMAND" "" mkParallelizer).2.fs_map.countP
      (fun kv => "COMMAND" == kv.1) = 1 ∧
    (create_stack "COMMAND" ""
      (create_stack "COMMAND" "" mkParallelizer).2).1 = false := by
  have H1 := (create_stack_registry "COMMAND" "" mkParallelizer).2 rfl
  have H2 := ((create_stack_registry "COMMAND" ""
    (create_stack "COMMAND" "" mkParallelizer).2).1
      (join_path mkParallelizer.work_directory ("COMMAND" ++ "")))
  refine ⟨rfl, H1.2, ?_⟩
  have hl : (create_stack "COMMAND" "" mkParallelizer).2.fs_map.lookup "COMMAND" =
      some (join_path mkParallelizer.work_directory ("COMMAND" ++ "")) := by
    rw [H1.1]
    rfl
  rw [H2 hl]

/-! ### The work directory -/

/-- C6: work-directory creation is deterministic in its inputs and
idempotent — the composed path is a function of the override, the job
id and the base name; an already-existing directory is treated as
success; a successful call followed by an identical call succeeds both
times with the same path; and any other `mkdir` failure is a fatal
error carrying the composed path. -/
theorem ensure_work_directory_idempotent (tempdir : String)
    (jobid : Option String) (s : PState) (fs : FileSys) :
    (∀ s1 fs1, ensure_work_directory tempdir jobid s fs = .ok (s1, fs1) →
      s1.work_directory = compose_work_directory tempdir jobid s.work_directory) ∧
    (∀ s1 fs1, ensure_work_directory tempdir jobid s fs = .ok (s1, fs1) →
      ensure_work_directory tempdir jobid s fs1 = .ok (s1, fs1)) ∧
    (compose_work_directory tempdir jobid s.work_directory ∈ fs.dirs →
      ensure_work_directory tempdir jobid s fs =
        .ok ({ s with work_directory :=
          compose_work_directory tempdir jobid s.work_directory }, fs)) ∧
    (compose_work_directory tempdir jobid s.work_directory ∉ fs.dirs →
      compose_work_directory tempdir jobid s.work_directory ∈ fs.bad →
      ensure_work_directory tempdir jobid s fs =
        .error ("could not create working directory " ++
          compose_work_directory tempdir jobid s.work_directory ++
          " for parallelizer")) := by
  by_cases hin : compose_work_directory tempdir jobid s.work_directory ∈ fs.dirs
  · have hrun : ensure_work_directory tempdir jobid s fs =
        .ok ({ s with work_directory :=
          compose_work_directory tempdir jobid s.work_directory }, fs) := by
      simp only [ensure_work_directory, mkdir, if_pos hin]
    refine ⟨?_, ?_, fun _ => hrun, fun hnot _ => absurd hin hnot⟩
    · intro s1 fs1 h
      rw [hrun] at h
      injection h with h
      injection h with h1 h2
      rw [← h1]
    · intro s1 fs1 h
      rw [hrun] at h
      injection h with h
      injection h with h1 h2
      rw [← h2, hrun, h1]
  · by_cases hbad : compose_work_directory tempdir jobid s.work_directory ∈ fs.bad
    · have hrun : ensure_work_directory tempdir jobid s fs =
          .error ("could not create working directory " ++
            compose_work_directory tempdir jobid s.work_directory ++
            " for parallelizer") := by
        simp only [ensure_work_directory, mkdir, if_neg hin, if_pos hbad]
      refine ⟨?_, ?_, fun hmem => absurd hmem hin, fun _ _ => hrun⟩
      · intro s1 fs1 h
        rw [hrun] at h
        exact absurd h (by simp)
      · intro s1 fs1 h
        rw [hrun] at h
        exact absurd h (by simp)
    · have hrun : ensure_work_directory tempdir jobid s fs =
          .ok ({ s with work_directory :=
              compose_work_directory tempdir jobid s.work_directory },
            { fs with dirs :=
              compose_work_directory tempdir jobid s.work_directory :: fs.dirs }) := by
        simp only [ensure_work_directory, mkdir, if_neg hin, if_neg hbad]
      refine ⟨?_, ?_, fun hmem => absurd hmem hin, fun _ hb => absurd hb hbad⟩
      · intro s1 fs1 h
        rw [hrun] at h
        injection h with h
        injection h with h1 h2
        rw [← h1]
      · intro s1 fs1 h
        rw [hrun] at h
        injection h with h
        injection h with h1 h2
        have hmem1 : compose_work_directory tempdir jobid s.work_directory ∈
            fs1.dirs := by
          rw [← h2]
          exact List.mem_cons_self _ _
        have hrun2 : ensure_work_directory tempdir jobid s fs1 =
            .ok ({ s with work_directory :=
              compose_work_directory tempdir jobid s.work_directory }, fs1) := by
          simp only [ensure_work_directory, mkdir, if_pos hmem1]
        rw [hrun2, h1]

theorem ensure_work_directory_idempotent_witness :
    ensure_work_directory "tmp" (some "7") mkParallelizer ⟨[], []⟩ =
      .ok ({ mkParallelizer with work_directory := "tmp/libworkstack_7" },
        ⟨["tmp/libworkstack_7"], []⟩) ∧
    ensure_work_directory "tmp" (some "7") mkParallelizer
      ⟨["tmp/libworkstack_7"], []⟩ =
      .ok ({ mkParallelizer with work_directory := "tmp/libworkstack_7" },
        ⟨["tmp/libworkstack_7"], []⟩) := by
  have h1 : ensure_work_directory "tmp" (some "7") mkParallelizer ⟨[], []⟩ =
      .ok ({ mkParallelizer with work_directory := "tmp/libworkstack_7" },
        ⟨["tmp/libworkstack_7"], []⟩) := by rfl
  exact ⟨h1, (ensure_work_directory_idempotent "tmp" (some "7")
    mkParallelizer ⟨[], []⟩).2.1 _ _ h1⟩

/-! ### Identity resolution -/

theorem resolve_rank_check_ok_master_iff (rk : Int) (s s1 : PState)
    (h : resolve_rank_check rk s = .ok s1) :
    (s1.master_flag = true ↔ s1.rank = 0) := by
  unfold resolve_rank_check at h
  by_cases hneg : rk < 0
  · rw [if_pos hneg] at h
    exact absurd h (by simp)
  · rw [if_neg hneg] at h
    injection h with h
    subst h
    by_cases h0 : rk = 0 <;> simp [h0]

theorem resolve_identity_ok_master_iff (env : String → Option String)
    (s s1 : PState) (h : resolve_identity env s = .ok s1) :
    (s1.master_flag = true ↔ s1.rank = 0) := by
  rcases hfs : first_set env env_opts with _ | str
  · simp only [resolve_identity, hfs] at h
    exact resolve_rank_check_ok_master_iff s.rank s s1 h
  · simp only [resolve_identity, hfs] at h
    rcases hst : cppStoi str with _ | v
    · simp only [hst] at h
      exact absurd h (by simp)
    · simp only [hst] at h
      exact resolve_rank_check_ok_master_iff v s s1 h

/-- C5: rank resolution scans `SLURM_PROCID` then `PARALLEL_RANK`; the
first variable found set wins and its value is parsed as the rank, the
identity becomes `"rank_" + rank`, the coordinator flag holds exactly
for rank 0, and when neither variable is set (the rank staying at its
negative sentinel) resolution fails with the configuration error. -/
theorem resolve_identity_precedence (env : String → Option String) (s : PState) :
    (∀ v : String, ∀ r : Int, env "SLURM_PROCID" = some v →
      cppStoi v = some r → 0 ≤ r →
      resolve_identity env s =
        .ok { s with rank := r,
                     master_flag := if r = 0 then true else false,
                     id := "rank_" ++ int_to_string r }) ∧
    (∀ v : String, ∀ r : Int, env "SLURM_PROCID" = none →
      env "PARALLEL_RANK" = some v → cppStoi v = some r → 0 ≤ r →
      resolve_identity env s =
        .ok { s with rank := r,
                     master_flag := if r = 0 then true else false,
                     id := "rank_" ++ int_to_string r }) ∧
    (env "SLURM_PROCID" = none → env "PARALLEL_RANK" = none → s.rank < 0 →
      resolve_identity env s = .error .configurationError) ∧
    (∀ s1, resolve_identity env s = .ok s1 →
      (s1.master_flag = true ↔ s1.rank = 0)) := by
  refine ⟨?_, ?_, ?_, fun s1 h => resolve_identity_ok_master_iff env s s1 h⟩
  · intro v r h1 h2 hr
    have hfs : first_set env env_opts = some v := by
      simp [first_set, env_opts, h1]
    simp only [resolve_identity, hfs, h2]
    unfold resolve_rank_check
    rw [if_neg (by omega)]
  · intro v r h1 h2 h3 hr
    have hfs : first_set env env_opts = some v := by
      simp [first_set, env_opts, h1, h2]
    simp only [resolve_identity, hfs, h3]
    unfold resolve_rank_check
    rw [if_neg (by omega)]
  · intro h1 h2 hneg
    have hfs : first_set env env_opts = none := by
      simp [first_set, env_opts, h1, h2]
    simp only [resolve_identity, hfs]
    unfold resolve_rank_check
    rw [if_pos hneg]

theorem resolve_identity_precedence_witness :
    resolve_identity
      (fun v => if v = "PARALLEL_RANK" then some "3" else none) mkParallelizer =
      .ok { mkParallelizer with rank := 3, master_flag := false, id := "rank_3" } ∧
    resolve_identity
      (fun v => if v = "SLURM_PROCID" then some "0" else none) mkParallelizer =
      .ok { mkParallelizer with rank := 0, master_flag := true, id := "rank_0" } ∧
    resolve_identity (fun _ => none) mkParallelizer =
      .error .configurationError := by
  refine ⟨?_, ?_, ?_⟩
  · have h := (resolve_identity_precedence
      (fun v => if v = "PARALLEL_RANK" then some "3" else none)
      mkParallelizer).2.1 "3" 3 rfl rfl rfl (by decide)
    rw [h]
    rfl
  · have h := (resolve_identity_precedence
      (fun v => if v = "SLURM_PROCID" then some "0" else none)
      mkParallelizer).1 "0" 0 rfl rfl (by decide)
    rw [h]
    rfl
  · exact (resolve_identity_precedence (fun _ => none) mkParallelizer).2.2.1
      rfl rfl (by decide)

/-- C10: on a freshly constructed, uninitialized instance `is_master()`
reports `true` regardless of the eventual rank — the constructor sets
the flag to `true`, and only `init`'s rank resolution replaces it with
the rank-0 test. -/
theorem is_master_before_init (env : String → Option String) (s1 : PState) :
    is_master mkParallelizer = true ∧
    (resolve_identity env mkParallelizer = .ok s1 →
      (is_master s1 = true ↔ s1.rank = 0)) := by
  refine ⟨rfl, fun h => ?_⟩
  simpa [is_master] using resolve_identity_ok_master_iff env mkParallelizer s1 h

theorem is_master_before_init_witness :
    is_master mkParallelizer = true ∧
    is_master ({ mkParallelizer with rank := 3, master_flag := false, id := "rank_3" } : PState) = false ∧
    ({ mkParallelizer with rank := 3, master_flag := false, id := "rank_3" } : PState).rank ≠ 0 := by
  have H := is_master_before_init
    (fun v => if v = "PARALLEL_RANK" then some "3" else none)
    ({ mkParallelizer with rank := 3, master_flag := false, id := "rank_3" } : PState)
  have hiff := H.2 rfl
  refine ⟨H.1, ?_, by decide⟩
  cases hb : is_master ({ mkParallelizer with rank := 3, master_flag := false, id := "rank_3" } : PState)
  · rfl
  · exact absurd (hiff.mp hb) (by decide)

/-! ### The registration protocol -/

theorem drain_register_spec : ∀ q w : List String, ∀ n : Nat,
    drain_register q w n = ([], w ++ q, n + q.length) := by
  intro q
  induction q with
  | nil => intro w n; simp [drain_register]
  | cons x rest ih =>
    intro w n
    rw [drain_register, ih]
    refine congrArg _ ?_
    refine Prod.ext ?_ ?_
    · simp
    · simp
      omega

/-- C8: each process pushes its own id onto REGISTER and then only the
coordinator drains REGISTER into WORKERS, counting each popped id; when
the other participants' pushes all landed before the drain (REGISTER
holds a permutation of their ids), the coordinator ends with a
registered count of exactly the participant count and a duplicate-free
worker set, while a non-coordinator drains nothing and keeps its count. -/
theorem register_workers_protocol (coord w : PState) (others R : List String)
    (q : SharedQueues)
    (hm : coord.master_flag = true) (h0 : coord.n_registered = 0)
    (hperm : R.Perm others) (hnodup : (coord.id :: others).Nodup)
    (hw : w.master_flag = false) :
    (register_workers coord { register := R, workers := [] }).1.n_registered =
      others.length + 1 ∧
    (register_workers coord { register := R, workers := [] }).2.register = [] ∧
    (register_workers coord { register := R, workers := [] }).2.workers.Perm
      (coord.id :: others) ∧
    (register_workers coord { register := R, workers := [] }).2.workers.Nodup ∧
    register_workers w q = (w, { q with register := q.register ++ [w.id] }) := by
  have hrun : register_workers coord { register := R, workers := [] } =
      ({ coord with n_registered := 0 + (R ++ [coord.id]).length },
       { register := [], workers := [] ++ (R ++ [coord.id]) }) := by
    unfold register_workers
    simp only [is_master, hm, if_true]
    rw [show ({ register := R, workers := [] } : SharedQueues).register ++ [coord.id]
        = R ++ [coord.id] from rfl]
    rw [drain_register_spec (R ++ [coord.id]) [] coord.n_registered, h0]
  have hperm2 : (R ++ [coord.id]).Perm (coord.id :: others) :=
    (List.perm_append_singleton _ _).trans (hperm.cons _)
  refine ⟨?_, ?_, ?_, ?_, ?_⟩
  · rw [hrun]
    simp [hperm.length_eq]
  · rw [hrun]
  · rw [hrun]
    simpa using hperm2
  · rw [hrun]
    simpa using hperm2.symm.nodup hnodup
  · unfold register_workers
    simp [is_master, hw]

theorem register_workers_protocol_witness :
    (register_workers
      { mkParallelizer with id := "rank_0", master_flag := true }
      { register := ["rank_2", "rank_1"], workers := [] }).1.n_registered = 3 ∧
    (register_workers
      { mkParallelizer with id := "rank_0", master_flag := true }
      { register := ["rank_2", "rank_1"], workers := [] }).2.register = [] ∧
    (register_workers
      { mkParallelizer with id := "rank_0", master_flag := true }
      { register := ["rank_2", "rank_1"], workers := [] }).2.workers.Nodup ∧
    register_workers
      { mkParallelizer with id := "rank_1", master_flag := false }
      { register := [], workers := [] } =
      ({ mkParallelizer with id := "rank_1", master_flag := false },
       { register := ["rank_1"], workers := [] }) := by
  have H := register_workers_protocol
    { mkParallelizer with id := "rank_0", master_flag := true }
    { mkParallelizer with id := "rank_1", master_flag := false }
    ["rank_1", "rank_2"] ["rank_2", "rank_1"]
    { register := [], workers := [] }
    rfl rfl (by decide) (by decide) rfl
  exact ⟨H.1, H.2.1, H.2.2.2.1, H.2.2.2.2⟩

/-! ### The cleanup ledgers -/

/-- C9: the cleanup scheme has a one-generation lag — on the master a
successful barrier call deletes exactly the files recorded by the
previous call, then records the just-completed step's command and ack
file names (and this cleaning/recording happens only after the release
phase, i.e. after the `GOON` poll in the operation order); the
destructor deletes the continuous ledger; and the final ledger
accumulates every created queue's backing path but is untouched by the
destructor. -/
theorem cleanup_one_generation_lag (tag : String) (s : PState)
    (h : s.initialized = true) (hm : s.master_flag = true) :
    (barrier tag s).deleted = s.continuous_cleanup_list ∧
    (barrier tag s).state.continuous_cleanup_list =
      [get_barrier_file_name s "cmd" tag s.i_barrier,
       get_barrier_file_name s "ack" tag s.i_barrier] ∧
    (barrier tag s).state.final_cleanup_list = s.final_cleanup_list ∧
    ((barrier_ops true).indexOf .pollGoonMarker <
       (barrier_ops true).indexOf .cleanContinuous ∧
     (barrier_ops true).indexOf .cleanContinuous <
       (barrier_ops true).indexOf .recordCmdFile ∧
     (barrier_ops true).indexOf .recordCmdFile <
       (barrier_ops true).indexOf .recordAckFile) ∧
    (∀ t : PState, destructor t =
      (t.continuous_cleanup_list, { t with continuous_cleanup_list := [] })) ∧
    (∀ tg fn : String, ∀ t : PState, t.fs_map.lookup tg = none →
      (create_stack_from_file tg fn t).2.final_cleanup_list =
        t.final_cleanup_list ++ [fn]) := by
  rw [barrier_master_run tag s h hm]
  refine ⟨rfl, rfl, rfl, by decide, fun t => rfl, ?_⟩
  intro tg fn t hnone
  unfold create_stack_from_file
  rw [hnone]
  rfl

theorem cleanup_one_generation_lag_witness :
    (barrier "x" { mkParallelizer with initialized := true, continuous_cleanup_list := ["prev_cmd", "prev_ack"] }).deleted =
      ["prev_cmd", "prev_ack"] ∧
    (barrier "x" { mkParallelizer with initialized := true, continuous_cleanup_list := ["prev_cmd", "prev_ack"] }).state.final_cleanup_list =
      ({ mkParallelizer with initialized := true, continuous_cleanup_list := ["prev_cmd", "prev_ack"] } : PState).final_cleanup_list ∧
    destructor { mkParallelizer with continuous_cleanup_list := ["a"] } =
      (["a"], { mkParallelizer with continuous_cleanup_list := [] }) := by
  have H := cleanup_one_generation_lag "x"
    { mkParallelizer with initialized := true, continuous_cleanup_list := ["prev_cmd", "prev_ack"] } rfl rfl
  exact ⟨H.1, H.2.2.1,
    H.2.2.2.2.1 { mkParallelizer with continuous_cleanup_list := ["a"] }⟩

/-! ### The barrier ordering invariant -/

theorem update_le_cases {n : Nat} {pc : Fin (n + 1) → Nat} {p q : Fin (n + 1)}
    {v k : Nat} (h : k ≤ Function.update pc p v q) :
    (q = p ∧ k ≤ v) ∨ (q ≠ p ∧ k ≤ pc q) := by
  by_cases hq : q = p
  · subst hq
    rw [Function.update_same] at h
    exact Or.inl ⟨rfl, h⟩
  · rw [Function.update_noteq hq] at h
    exact Or.inr ⟨hq, h⟩

theorem filter_pc_update_low {n : Nat} (pc : Fin (n + 1) → Nat) (p : Fin (n + 1))
    (v : Nat) (hv : v < 4) (hold : pc p < 4) :
    (Finset.univ.filter (fun q => 4 ≤ Function.update pc p v q)) =
      Finset.univ.filter (fun q => 4 ≤ pc q) := by
  apply Finset.filter_congr
  intro q _
  by_cases hq : q = p
  · subst hq
    rw [Function.update_same]
    omega
  · rw [Function.update_noteq hq]

theorem filter_pc_update_high {n : Nat} (pc : Fin (n + 1) → Nat) (p : Fin (n + 1))
    (v : Nat) (hv : 4 ≤ v) (hold : 4 ≤ pc p) :
    (Finset.univ.filter (fun q => 4 ≤ Function.update pc p v q)) =
      Finset.univ.filter (fun q => 4 ≤ pc q) := by
  apply Finset.filter_congr
  intro q _
  by_cases hq : q = p
  · subst hq
    rw [Function.update_same]
    omega
  · rw [Function.update_noteq hq]

theorem filter_pc_update_push {n : Nat} (pc : Fin (n + 1) → Nat) (p : Fin (n + 1))
    (hold : pc p < 4) :
    (Finset.univ.filter (fun q => 4 ≤ Function.update pc p 4 q)) =
      insert p (Finset.univ.filter (fun q => 4 ≤ pc q)) := by
  ext q
  simp only [Finset.mem_filter, Finset.mem_insert, Finset.mem_univ, true_and]
  by_cases hq : q = p
  · subst hq
    rw [Function.update_same]
    constructor
    · intro _
      exact Or.inl rfl
    · intro _
      exact Nat.le_refl 4
  · rw [Function.update_noteq hq]
    constructor
    · intro h4
      exact Or.inr h4
    · rintro (heq | h4)
      · exact absurd heq hq
      · exact h4

theorem goon_mem_of_append_wait {cmd : List Marker}
    (h : Marker.goon ∈ cmd ++ [Marker.wait]) : Marker.goon ∈ cmd := by
  rcases List.mem_append.mp h with h1 | h1
  · exact h1
  · simp at h1

theorem wait_mem_of_append_goon {cmd : List Marker}
    (h : Marker.wait ∈ cmd ++ [Marker.goon]) : Marker.wait ∈ cmd := by
  rcases List.mem_append.mp h with h1 | h1
  · exact h1
  · simp at h1

theorem BInv_init (n : Nat) : BInv n (BInit n) := by
  refine ⟨?_, ?_, ?_, ?_, ?_, ?_, ?_⟩ <;> simp [BInit, BInv]

theorem BInv_step {n : Nat} {s t : BState n} (hi : BInv n s) (hs : BStep n s t) :
    BInv n t := by
  obtain ⟨iw, ig, pw, pg, sz, cnt, mem⟩ := hi
  cases hs with
  | clear_ack h0 =>
    unfold BInv
    dsimp only
    have h3 : ∀ p : Fin (n + 1), ¬ 3 ≤ s.pc p := by
      intro p hp
      have := iw (pw p hp)
      omega
    refine ⟨?_, ?_, ?_, ?_, ?_, ?_, ?_⟩
    · intro hwc
      exact absurd (iw hwc) (by omega)
    · intro hgc
      exact absurd (ig hgc) (by omega)
    · intro p hp
      rcases update_le_cases hp with ⟨_, hk⟩ | ⟨_, hk⟩
      · omega
      · exact absurd hk (h3 p)
    · intro p hp
      rcases update_le_cases hp with ⟨_, hk⟩ | ⟨_, hk⟩
      · omega
      · exact absurd (by omega : 3 ≤ s.pc p) (h3 p)
    · intro h5
      rcases update_le_cases h5 with ⟨_, hk⟩ | ⟨hne, _⟩
      · omega
      · exact absurd rfl hne
    · have hemp : (Finset.univ.filter
          (fun q => 4 ≤ Function.update s.pc 0 1 q)) = ∅ := by
        rw [Finset.filter_eq_empty_iff]
        intro q _
        intro h4
        rcases update_le_cases h4 with ⟨_, hk⟩ | ⟨_, hk⟩
        · omega
        · exact h3 q (by omega)
      rw [hemp]
      rfl
    · intro p hp
      rcases update_le_cases hp with ⟨_, hk⟩ | ⟨_, hk⟩
      · omega
      · exact absurd (by omega : 3 ≤ s.pc p) (h3 p)
  | skip_clear p hp0 h0 =>
    have hpc0 : Function.update s.pc p 1 0 = s.pc 0 :=
      Function.update_noteq (fun h => hp0 h.symm) 1 s.pc
    unfold BInv
    dsimp only
    refine ⟨?_, ?_, ?_, ?_, ?_, ?_, ?_⟩
    · intro hwc
      rw [hpc0]
      exact iw hwc
    · intro hgc
      rw [hpc0]
      exact ig hgc
    · intro q hq
      rcases update_le_cases hq with ⟨_, hk⟩ | ⟨_, hk⟩
      · omega
      · exact pw q hk
    · intro q hq
      rcases update_le_cases hq with ⟨_, hk⟩ | ⟨_, hk⟩
      · omega
      · exact pg q hk
    · intro h5
      rw [hpc0] at h5
      exact sz h5
    · rw [filter_pc_update_low s.pc p 1 (by omega) (by omega)]
      exact cnt
    · intro q hq
      rcases update_le_cases hq with ⟨_, hk⟩ | ⟨_, hk⟩
      · omega
      · exact mem q hk
  | push_wait h0 =>
    unfold BInv
    dsimp only
    refine ⟨?_, ?_, ?_, ?_, ?_, ?_, ?_⟩
    · intro _
      rw [Function.update_same]
    · intro hgc
      exact absurd (ig (goon_mem_of_append_wait hgc)) (by omega)
    · intro q _
      exact List.mem_append.mpr (Or.inr (by simp))
    · intro q hq
      rcases update_le_cases hq with ⟨_, hk⟩ | ⟨_, hk⟩
      · omega
      · exact List.mem_append.mpr (Or.inl (pg q hk))
    · intro h5
      rcases update_le_cases h5 with ⟨_, hk⟩ | ⟨hne, _⟩
      · omega
      · exact absurd rfl hne
    · rw [filter_pc_update_low s.pc 0 2 (by omega) (by omega)]
      exact cnt
    · intro q hq
      rcases update_le_cases hq with ⟨_, hk⟩ | ⟨_, hk⟩
      · omega
      · exact mem q hk
  | skip_push_wait p hp0 h0 =>
    have hpc0 : Function.update s.pc p 2 0 = s.pc 0 :=
      Function.update_noteq (fun h => hp0 h.symm) 2 s.pc
    unfold BInv
    dsimp only
    refine ⟨?_, ?_, ?_, ?_, ?_, ?_, ?_⟩
    · intro hwc
      rw [hpc0]
      exact iw hwc
    · intro hgc
      rw [hpc0]
      exact ig hgc
    · intro q hq
      rcases update_le_cases hq with ⟨_, hk⟩ | ⟨_, hk⟩
      · omega
      · exact pw q hk
    · intro q hq
      rcases update_le_cases hq with ⟨_, hk⟩ | ⟨_, hk⟩
      · omega
      · exact pg q hk
    · intro h5
      rw [hpc0] at h5
      exact sz h5
    · rw [filter_pc_update_low s.pc p 2 (by omega) (by omega)]
      exact cnt
    · intro q hq
      rcases update_le_cases hq with ⟨_, hk⟩ | ⟨_, hk⟩
      · omega
      · exact mem q hk
  | poll_wait p hp2 hwin =>
    unfold BInv
    dsimp only
    refine ⟨?_, ?_, ?_, ?_, ?_, ?_, ?_⟩
    · intro _
      by_cases hq : (0 : Fin (n + 1)) = p
      · rw [hq, Function.update_same]
        omega
      · rw [Function.update_noteq hq]
        exact iw hwin
    · intro hgc
      have h6 := ig hgc
      by_cases hq : (0 : Fin (n + 1)) = p
      · rw [← hq] at hp2
        omega
      · rw [Function.update_noteq hq]
        exact h6
    · intro q hq
      rcases update_le_cases hq with ⟨_, _⟩ | ⟨_, hk⟩
      · exact hwin
      · exact pw q hk
    · intro q hq
      rcases update_le_cases hq with ⟨_, hk⟩ | ⟨_, hk⟩
      · omega
      · exact pg q hk
    · intro h5
      rcases update_le_cases h5 with ⟨hq, hk⟩ | ⟨_, hk⟩
      · omega
      · exact sz hk
    · rw [filter_pc_update_low s.pc p 3 (by omega) (by omega)]
      exact cnt
    · intro q hq
      rcases update_le_cases hq with ⟨_, hk⟩ | ⟨_, hk⟩
      · omega
      · exact mem q hk
  | push_ack p hp3 =>
    unfold BInv
    dsimp only
    refine ⟨?_, ?_, ?_, ?_, ?_, ?_, ?_⟩
    · intro hwc
      have h2 := iw hwc
      by_cases hq : (0 : Fin (n + 1)) = p
      · rw [hq, Function.update_same]
        omega
      · rw [Function.update_noteq hq]
        exact h2
    · intro hgc
      have h6 := ig hgc
      by_cases hq : (0 : Fin (n + 1)) = p
      · rw [← hq] at hp3
        omega
      · rw [Function.update_noteq hq]
        exact h6
    · intro q hq
      rcases update_le_cases hq with ⟨hqe, _⟩ | ⟨_, hk⟩
      · subst hqe
        exact pw q (by omega)
      · exact pw q hk
    · intro q hq
      rcases update_le_cases hq with ⟨_, hk⟩ | ⟨_, hk⟩
      · omega
      · exact pg q hk
    · intro h5
      rw [List.length_append]
      rcases update_le_cases h5 with ⟨hq, hk⟩ | ⟨_, hk⟩
      · rw [← hq] at hp3
        omega
      · have := sz hk
        simp only [List.length_singleton]
        omega
    · rw [List.length_append, filter_pc_update_push s.pc p (by omega)]
      rw [Finset.card_insert_of_not_mem (by
        intro hmem1
        have := (Finset.mem_filter.mp hmem1).2
        omega)]
      simp [cnt]
    · intro q hq
      rcases update_le_cases hq with ⟨hqe, _⟩ | ⟨_, hk⟩
      · subst hqe
        exact List.mem_append.mpr (Or.inr (by simp))
      · exact List.mem_append.mpr (Or.inl (mem q hk))
  | poll_size h4 hlen =>
    unfold BInv
    dsimp only
    refine ⟨?_, ?_, ?_, ?_, ?_, ?_, ?_⟩
    · intro _
      rw [Function.update_same]
      omega
    · intro hgc
      exact absurd (ig hgc) (by omega)
    · intro q hq
      rcases update_le_cases hq with ⟨hqe, _⟩ | ⟨_, hk⟩
      · exact pw 0 (by omega)
      · exact pw q hk
    · intro q hq
      rcases update_le_cases hq with ⟨_, hk⟩ | ⟨_, hk⟩
      · omega
      · exact pg q hk
    · intro _
      exact hlen
    · rw [filter_pc_update_high s.pc 0 5 (by omega) (by omega)]
      exact cnt
    · intro q hq
      rcases update_le_cases hq with ⟨hqe, _⟩ | ⟨_, hk⟩
      · rw [hqe]
        exact mem 0 (by omega)
      · exact mem q hk
  | skip_poll_size p hp0 h4 =>
    have hpc0 : Function.update s.pc p 5 0 = s.pc 0 :=
      Function.update_noteq (fun h => hp0 h.symm) 5 s.pc
    unfold BInv
    dsimp only
    refine ⟨?_, ?_, ?_, ?_, ?_, ?_, ?_⟩
    · intro hwc
      rw [hpc0]
      exact iw hwc
    · intro hgc
      rw [hpc0]
      exact ig hgc
    · intro q hq
      rcases update_le_cases hq with ⟨hqe, _⟩ | ⟨_, hk⟩
      · subst hqe
        exact pw q (by omega)
      · exact pw q hk
    · intro q hq
      rcases update_le_cases hq with ⟨_, hk⟩ | ⟨_, hk⟩
      · omega
      · exact pg q hk
    · intro h5
      rw [hpc0] at h5
      exact sz h5
    · rw [filter_pc_update_high s.pc p 5 (by omega) (by omega)]
      exact cnt
    · intro q hq
      rcases update_le_cases hq with ⟨hqe, _⟩ | ⟨_, hk⟩
      · subst hqe
        exact mem q (by omega)
      · exact mem q hk
  | push_goon h5 =>
    unfold BInv
    dsimp only
    refine ⟨?_, ?_, ?_, ?_, ?_, ?_, ?_⟩
    · intro _
      rw [Function.update_same]
      omega
    · intro _
      rw [Function.update_same]
    · intro q hq
      rcases update_le_cases hq with ⟨hqe, _⟩ | ⟨_, hk⟩
      · exact List.mem_append.mpr (Or.inl (pw 0 (by omega)))
      · exact List.mem_append.mpr (Or.inl (pw q hk))
    · intro q _
      exact List.mem_append.mpr (Or.inr (by simp))
    · intro _
      exact sz (by omega)
    · rw [filter_pc_update_high s.pc 0 6 (by omega) (by omega)]
      exact cnt
    · intro q hq
      rcases update_le_cases hq with ⟨hqe, _⟩ | ⟨_, hk⟩
      · rw [hqe]
        exact mem 0 (by omega)
      · exact mem q hk
  | skip_push_goon p hp0 h5 =>
    have hpc0 : Function.update s.pc p 6 0 = s.pc 0 :=
      Function.update_noteq (fun h => hp0 h.symm) 6 s.pc
    unfold BInv
    dsimp only
    refine ⟨?_, ?_, ?_, ?_, ?_, ?_, ?_⟩
    · intro hwc
      rw [hpc0]
      exact iw hwc
    · intro hgc
      rw [hpc0]
      exact ig hgc
    · intro q hq
      rcases update_le_cases hq with ⟨hqe, _⟩ | ⟨_, hk⟩
      · subst hqe
        exact pw q (by omega)
      · exact pw q hk
    · intro q hq
      rcases update_le_cases hq with ⟨_, hk⟩ | ⟨_, hk⟩
      · omega
      · exact pg q hk
    · intro hx
      rw [hpc0] at hx
      exact sz hx
    · rw [filter_pc_update_high s.pc p 6 (by omega) (by omega)]
      exact cnt
    · intro q hq
      rcases update_le_cases hq with ⟨hqe, _⟩ | ⟨_, hk⟩
      · subst hqe
        exact mem q (by omega)
      · exact mem q hk
  | poll_goon p hp6 hgin =>
    unfold BInv
    dsimp only
    refine ⟨?_, ?_, ?_, ?_, ?_, ?_, ?_⟩
    · intro hwc
      have h2 := iw hwc
      by_cases hq : (0 : Fin (n + 1)) = p
      · rw [hq, Function.update_same]
        omega
      · rw [Function.update_noteq hq]
        exact h2
    · intro hgc
      have h6 := ig hgc
      by_cases hq : (0 : Fin (n + 1)) = p
      · rw [hq, Function.update_same]
        omega
      · rw [Function.update_noteq hq]
        exact h6
    · intro q hq
      rcases update_le_cases hq with ⟨hqe, _⟩ | ⟨_, hk⟩
      · subst hqe
        exact pw q (by omega)
      · exact pw q hk
    · intro q hq
      rcases update_le_cases hq with ⟨hqe, _⟩ | ⟨_, hk⟩
      · subst hqe
        exact hgin
      · exact pg q hk
    · intro h5
      rcases update_le_cases h5 with ⟨hq, _⟩ | ⟨_, hk⟩
      · refine sz ?_
        rw [hq]
        omega
      · exact sz hk
    · rw [filter_pc_update_high s.pc p 7 (by omega) (by omega)]
      exact cnt
    · intro q hq
      rcases update_le_cases hq with ⟨hqe, _⟩ | ⟨_, hk⟩
      · subst hqe
        exact mem q (by omega)
      · exact mem q hk

theorem BReach_inv {n : Nat} {s : BState n} (h : BReach n s) : BInv n s := by
  induction h with
  | refl => exact BInv_init n
  | tail _ hstep ih => exact BInv_step ih hstep

/-- C1: barrier ordering — in every reachable state of a barrier step
with `n + 1` registered participants, the coordinator has pushed `GOON`
only after the ack queue reached size `n + 1`, and any process past the
release-phase poll (pc 7) implies that every participant has executed
its ack push and that every participant's id is on the ack queue. -/
theorem barrier_goon_ordering (n : Nat) (s : BState n) (hr : BReach n s) :
    (Marker.goon ∈ s.cmd → n + 1 ≤ s.ack.length) ∧
    (∀ p, s.pc p = 7 → ∀ q, 4 ≤ s.pc q ∧ q ∈ s.ack) := by
  obtain ⟨iw, ig, pw, pg, sz, cnt, mem⟩ := BReach_inv hr
  constructor
  · intro hg
    exact sz (by have := ig hg; omega)
  · intro p hp q
    have hg : Marker.goon ∈ s.cmd := pg p (by omega)
    have h6 := ig hg
    have hlen : n + 1 ≤ s.ack.length := sz (by omega)
    have hcard : n + 1 ≤ (Finset.univ.filter (fun r => 4 ≤ s.pc r)).card := by
      rw [← cnt]
      exact hlen
    have huniv : (Finset.univ.filter (fun r => 4 ≤ s.pc r)) = Finset.univ := by
      apply Finset.eq_univ_of_card
      have hle := Finset.card_le_univ (Finset.univ.filter (fun r => 4 ≤ s.pc r))
      rw [Fintype.card_fin] at hle
      rw [Fintype.card_fin]
      omega
    have hq4 : 4 ≤ s.pc q := by
      have hmemq : q ∈ Finset.univ.filter (fun r => 4 ≤ s.pc r) := by
        rw [huniv]
        exact Finset.mem_univ q
      exact (Finset.mem_filter.mp hmemq).2
    exact ⟨hq4, mem q hq4⟩

theorem bstate_eq_one (s t : BState 0) (hpc : s.pc 0 = t.pc 0)
    (hcmd : s.cmd = t.cmd) (hack : s.ack = t.ack) : s = t := by
  obtain ⟨f, c, a⟩ := s
  obtain ⟨g, c2, a2⟩ := t
  dsimp only at hpc hcmd hack
  subst hcmd
  subst hack
  have hf : f = g := by
    funext q
    rw [Fin.eq_zero q]
    exact hpc
  rw [hf]

theorem c1_chain : BReach 0 c1_final := by
  have h1 : BStep 0 (BInit 0) c1s1 := by
    have h := BStep.clear_ack (n := 0) (s := BInit 0) rfl
    have he : (⟨Function.update (BInit 0).pc 0 1, (BInit 0).cmd, []⟩ : BState 0) =
        c1s1 := bstate_eq_one _ _ (by simp [BInit, c1s1]) rfl rfl
    rw [← he]
    exact h
  have h2 : BStep 0 c1s1 c1s2 := by
    have h := BStep.push_wait (n := 0) (s := c1s1) rfl
    have he : (⟨Function.update c1s1.pc 0 2, c1s1.cmd ++ [Marker.wait],
        c1s1.ack⟩ : BState 0) = c1s2 :=
      bstate_eq_one _ _ (by simp [c1s1, c1s2]) rfl rfl
    rw [← he]
    exact h
  have h3 : BStep 0 c1s2 c1s3 := by
    have h := BStep.poll_wait (n := 0) (s := c1s2) 0 rfl (by decide)
    have he : (⟨Function.update c1s2.pc 0 3, c1s2.cmd, c1s2.ack⟩ : BState 0) =
        c1s3 := bstate_eq_one _ _ (by simp [c1s2, c1s3]) rfl rfl
    rw [← he]
    exact h
  have h4 : BStep 0 c1s3 c1s4 := by
    have h := BStep.push_ack (n := 0) (s := c1s3) 0 rfl
    have he : (⟨Function.update c1s3.pc 0 4, c1s3.cmd, c1s3.ack ++ [0]⟩ : BState 0) =
        c1s4 := bstate_eq_one _ _ (by simp [c1s3, c1s4]) rfl rfl
    rw [← he]
    exact h
  have h5 : BStep 0 c1s4 c1s5 := by
    have h := BStep.poll_size (n := 0) (s := c1s4) rfl (by simp [c1s4])
    have he : (⟨Function.update c1s4.pc 0 5, c1s4.cmd, c1s4.ack⟩ : BState 0) =
        c1s5 := bstate_eq_one _ _ (by simp [c1s4, c1s5]) rfl rfl
    rw [← he]
    exact h
  have h6 : BStep 0 c1s5 c1s6 := by
    have h := BStep.push_goon (n := 0) (s := c1s5) rfl
    have he : (⟨Function.update c1s5.pc 0 6, c1s5.cmd ++ [Marker.goon],
        c1s5.ack⟩ : BState 0) = c1s6 :=
      bstate_eq_one _ _ (by simp [c1s5, c1s6]) rfl rfl
    rw [← he]
    exact h
  have h7 : BStep 0 c1s6 c1_final := by
    have h := BStep.poll_goon (n := 0) (s := c1s6) 0 rfl (by decide)
    have he : (⟨Function.update c1s6.pc 0 7, c1s6.cmd, c1s6.ack⟩ : BState 0) =
        c1_final := bstate_eq_one _ _ (by simp [c1s6, c1_final]) rfl rfl
    rw [← he]
    exact h
  exact Relation.ReflTransGen.head h1 (Relation.ReflTransGen.head h2
    (Relation.ReflTransGen.head h3 (Relation.ReflTransGen.head h4
      (Relation.ReflTransGen.head h5 (Relation.ReflTransGen.head h6
        (Relation.ReflTransGen.head h7 Relation.ReflTransGen.refl))))))

theorem barrier_goon_ordering_witness :
    c1_final.pc 0 = 7 ∧ 4 ≤ c1_final.pc 0 ∧ (0 : Fin 1) ∈ c1_final.ack ∧
    (Marker.goon ∈ c1_final.cmd → 0 + 1 ≤ c1_final.ack.length) := by
  have H := barrier_goon_ordering 0 c1_final c1_chain
  exact ⟨rfl, (H.2 0 rfl 0).1, (H.2 0 rfl 0).2, H.1⟩

end ParallelVerif
